import Mathlib

/-!
# Verification of the selfhost-stack control plane (hub-api)

Shallow embedding of the service update/rollback orchestration engine, the
session authentication state machine and the durable state store of the
`hub-api` application, together with proofs of the behavioural properties
stated in the specification.

Embedded source files:
* `src/lib/src/hub-api/app/utils/process.py` (`sanitize_service_name`)
* `src/lib/src/hub-api/app/core/security.py` (session table, sweeper,
  `get_current_user`, `create_session`, `save_sessions`)
* `src/lib/src/hub-api/app/routers/auth.py` (`toggle_session_cleanup`,
  `rotate_api_key`)
* `src/lib/src/hub-api/app/routers/services.py` (`_run_update` rollback
  checkpointing and source refresh, `rollback_single_service`,
  `_run_rollback`)
* `src/hub-api/server.py` (`run_service_update` stable-strategy ref
  selection)
* `src/lib/src/hub-api/app/routers/system.py` (`save_total_usage`)
-/

namespace SelfhostStack

/-! ## Service-name sanitizer

`app/utils/process.py`, `sanitize_service_name`:

```python
if not name or not isinstance(name, str):
    return None
sanitized = "".join([c for c in name if c.isalnum() or c in ('-', '_')])
return sanitized if sanitized else None
```

Characters are kept when alphanumeric or `-`/`_`; the result is `None`
exactly when nothing survives (or the input is empty/not a string; our
embedding is over strings, so the `isinstance` test is always true).
-/

/-- The allow-list used by the sanitizer: alphanumeric, `-` and `_`. -/
def allowedChar (c : Char) : Bool :=
  c.isAlphanum || c = '-' || c = '_'

/-- Embedding of `sanitize_service_name` from `app/utils/process.py`. -/
def sanitize_service_name (name : String) : Option String :=
  if name.data.isEmpty then none
  else
    let sanitized := name.data.filter allowedChar
    if sanitized.isEmpty then none else some (String.mk sanitized)

/-! ## Rollback history (`app/routers/services.py`)

`_run_update` records a checkpoint of the pre-update state:

```python
history.insert(0, new_entry)
history = history[:5]
```

`_run_rollback` selects a target entry:

```python
target_entry = None
if req.hash:
    for entry in history:
        if entry.get("hash") == req.hash or entry.get("image") == req.hash:
            target_entry = entry
            break
if not target_entry and history:
    target_entry = history[0]
if not target_entry:
    raise ValueError("No valid rollback target found")
```
-/

/-- One rollback history entry, as written by the update engine: a
timestamp plus the optional captured git revision and image id. -/
structure Entry where
  timestamp : String
  hash : Option String
  image : Option String
deriving DecidableEq, Repr

/-- One update's effect on a service's rollback history: prepend the
checkpoint of the pre-update state and truncate to five entries
(`history.insert(0, new_entry); history = history[:5]`). -/
def updateHistory (history : List Entry) (e : Entry) : List Entry :=
  (e :: history).take 5

/-- An update operation either records a checkpoint (rollback backups are
enabled and a previous hash or image was captured) or records nothing. -/
def updateOp (history : List Entry) (op : Option Entry) : List Entry :=
  match op with
  | some e => updateHistory history e
  | none => history

/-- The history after a sequence of updates, oldest update first. -/
def runUpdates (history : List Entry) (ops : List (Option Entry)) : List Entry :=
  ops.foldl updateOp history

/-- Whether `_run_rollback` considers an entry to match the requested
hash: `entry.get("hash") == req.hash or entry.get("image") == req.hash`. -/
def entryMatches (reqHash : String) (e : Entry) : Bool :=
  e.hash = some reqHash || e.image = some reqHash

/-- Embedding of `_run_rollback`'s target selection.  `none` means the
`ValueError("No valid rollback target found")` path. -/
def rollbackSelect (history : List Entry) (reqHash : Option String) :
    Option Entry :=
  let found := match reqHash with
    | some h => history.find? (entryMatches h)
    | none => none
  match found with
  | some e => some e
  | none => history.head?

/-- Embedding of the synchronous part of `rollback_single_service`
(`app/routers/services.py`).  `filesPresent` abstracts `os.path.exists`.
`.ok s` means the HTTP 200 response was sent and a background rollback job
for service `s` was registered; `.error c` means HTTP error status `c`
was raised and no job was started. -/
def rollback_single_service (rawService : String)
    (filesPresent : String → Bool) : Except Nat String :=
  match sanitize_service_name rawService with
  | none => .error 400
  | some service =>
      if filesPresent ("/app/data/rollback_" ++ service ++ ".json") then
        .ok service
      else
        .error 404

/-- Embedding of the synchronous part of `update_single_service`
(`app/routers/services.py`): sanitize, reject with 400 when invalid,
otherwise start the background update job for the sanitized name. -/
def update_single_service (rawService : String) : Except Nat String :=
  match sanitize_service_name rawService with
  | none => .error 400
  | some service => .ok service

/-! ## Session authentication state machine (`app/core/security.py`)

The session table is a Python dict `valid_sessions : token -> expiry`
together with the flag `session_state["cleanup_enabled"]`.  We embed the
dict as an association list with unique keys (insertion order preserved,
as for a Python dict); time is `Nat`.

* `create_session(timeout_seconds)`: `valid_sessions[token] = time.time() + timeout_seconds`.
* `get_current_user` (session branch): token found and
  (`not cleanup_enabled or time.time() < expiry`) → slide the expiry to
  `time.time() + 1800` and return `"admin"`; token found but stale →
  `del valid_sessions[token]` and fall through to 401; token absent → 401.
* `toggle_session_cleanup` (`app/routers/auth.py`): sets the flag.
* `cleanup_sessions_thread` (one sweep tick): when the flag is set,
  collect `[t for t, expiry in valid_sessions.items() if now > expiry]`
  and delete each collected token.
-/

/-- Dict lookup on the association-list embedding of a Python dict. -/
def lookupTok {α : Type} (l : List (String × α)) (t : String) : Option α :=
  match l with
  | [] => none
  | (k, v) :: r => if k = t then some v else lookupTok r t

/-- Dict assignment `d[t] = v`: replace in place when the key is present
(a Python dict keeps the key's position), otherwise append. -/
def setTok {α : Type} (l : List (String × α)) (t : String) (v : α) :
    List (String × α) :=
  if (lookupTok l t).isSome then
    l.map (fun p => if p.1 = t then (t, v) else p)
  else
    l ++ [(t, v)]

/-- Dict deletion `del d[t]`. -/
def delTok {α : Type} (l : List (String × α)) (t : String) :
    List (String × α) :=
  l.filter (fun p => p.1 ≠ t)

/-- The global session state: `valid_sessions` and
`session_state["cleanup_enabled"]`. -/
structure SessionState where
  valid_sessions : List (String × Nat)
  cleanup_enabled : Bool
deriving DecidableEq, Repr

/-- The state at process start with no persisted sessions:
`valid_sessions = {}`, `session_state = {"cleanup_enabled": True}`. -/
def initialSessionState : SessionState :=
  { valid_sessions := [], cleanup_enabled := true }

/-- `create_session`: store the fresh token with expiry
`now + timeout_seconds`. -/
def create_session (s : SessionState) (token : String) (now timeout : Nat) :
    SessionState :=
  { s with valid_sessions := setTok s.valid_sessions token (now + timeout) }

/-- The session-token branch of `get_current_user`, returning the
authentication outcome (`some "admin"` on success, `none` for the 401
fall-through) together with the updated state. -/
def get_current_user (s : SessionState) (token : String) (now : Nat) :
    Option String × SessionState :=
  match lookupTok s.valid_sessions token with
  | some expiry =>
      if !s.cleanup_enabled || now < expiry then
        (some "admin",
         { s with valid_sessions := setTok s.valid_sessions token (now + 1800) })
      else
        (none, { s with valid_sessions := delTok s.valid_sessions token })
  | none => (none, s)

/-- Whether presenting `token` at time `now` authorizes the request. -/
def authOk (s : SessionState) (token : String) (now : Nat) : Bool :=
  (get_current_user s token now).1.isSome

/-- `toggle_session_cleanup`: `session_state["cleanup_enabled"] = enabled`. -/
def toggle_session_cleanup (s : SessionState) (enabled : Bool) : SessionState :=
  { s with cleanup_enabled := enabled }

/-- One tick of `cleanup_sessions_thread`: when cleanup is enabled,
collect the expired tokens (`now > expiry`) and delete each of them. -/
def sweepSessions (s : SessionState) (now : Nat) : SessionState :=
  if s.cleanup_enabled then
    let expired := (s.valid_sessions.filter (fun p => now > p.2)).map Prod.fst
    { s with valid_sessions := expired.foldl delTok s.valid_sessions }
  else s

/-- The operations that mutate the session state. -/
inductive SessionOp where
  | issue (token : String) (now timeout : Nat)
  | auth (token : String) (now : Nat)
  | toggle (enabled : Bool)
  | sweep (now : Nat)
deriving DecidableEq, Repr

/-- Effect of one operation on the session state. -/
def sessionStep (s : SessionState) (op : SessionOp) : SessionState :=
  match op with
  | .issue token now timeout => create_session s token now timeout
  | .auth token now => (get_current_user s token now).2
  | .toggle enabled => toggle_session_cleanup s enabled
  | .sweep now => sweepSessions s now

/-- Effect of a sequence of operations, oldest first. -/
def sessionRun (s : SessionState) (ops : List SessionOp) : SessionState :=
  ops.foldl sessionStep s

/-- Whether an operation issues the given token. -/
def issuesToken (t : String) (op : SessionOp) : Bool :=
  match op with
  | .issue t' _ _ => t' = t
  | _ => false

/-! ## Secrets store (`app/routers/auth.py`, `rotate_api_key`)

The `.secrets` file is a set of `KEY='value'` lines.  `rotate_api_key`
reads it line by line:

```python
for line in f:
    if "=" in line:
        k, v = line.strip().split("=", 1)
        v = v.strip("'").strip('"')
        file_secrets[k] = v
```

sanitizes the new key to alphanumerics (rejecting empty or shorter than
16), sets `HUB_API_KEY` *and* `ODIDO_API_KEY` to it, and rewrites every
entry as `f"{k}='{v}'\n"`.  We embed the file as its list of lines.
-/

/-- Python's `str.strip(...)` on both ends, for a given character class. -/
def dropEdge (p : Char → Bool) (l : List Char) : List Char :=
  ((l.dropWhile p).reverse.dropWhile p).reverse

/-- `v.strip("'").strip('"')`. -/
def stripQuotes (v : List Char) : List Char :=
  dropEdge (· = '"') (dropEdge (· = '\'') v)

/-- `c != '='`: the character scanner of `split("=", 1)`. -/
def notEqSign (c : Char) : Bool := c != '='

/-- Parsing of one line of the `.secrets` file into the accumulated dict:
skip lines without `=`, otherwise strip the line, split at the first `=`
and strip quotes from the value. -/
def parseSecretsLine (acc : List (String × String)) (line : String) :
    List (String × String) :=
  if '=' ∈ line.data then
    let st := dropEdge Char.isWhitespace line.data
    let k := st.takeWhile notEqSign
    let v := (st.dropWhile notEqSign).tail
    setTok acc (String.mk k) (String.mk (stripQuotes v))
  else acc

/-- Parsing of the whole `.secrets` file. -/
def parseSecretsLines (lines : List String) : List (String × String) :=
  lines.foldl parseSecretsLine []

/-- One rewritten line: `f"{k}='{v}'\n"` (the newline is the line
separator of our lines model). -/
def encodeSecretsLine (p : String × String) : String :=
  String.mk (p.1.data ++ '=' :: '\'' :: (p.2.data ++ ['\'']))

/-- The rewritten `.secrets` file. -/
def encodeSecrets (l : List (String × String)) : List String :=
  l.map encodeSecretsLine

/-- `"".join(c for c in new_key if c.isalnum())`. -/
def sanitizeKey (k : String) : String :=
  String.mk (k.data.filter Char.isAlphanum)

/-- Embedding of `rotate_api_key` (`app/routers/auth.py`): `.error 400`
for a missing or weak key, otherwise `.ok` with the lines written back to
the `.secrets` file. -/
def rotate_api_key (newKey : String) (fileLines : List String) :
    Except Nat (List String) :=
  if newKey.data.isEmpty then .error 400
  else
    let sk := newKey.data.filter Char.isAlphanum
    if sk.isEmpty || sk.length < 16 then .error 400
    else
      let fs := parseSecretsLines fileLines
      let fs := setTok fs "HUB_API_KEY" (String.mk sk)
      let fs := setTok fs "ODIDO_API_KEY" (String.mk sk)
      .ok (encodeSecrets fs)

/-! ## Durable-state write traces

For the atomicity claim we record which file-system operations each
persisting function performs, in order.

* `save_sessions` (`app/core/security.py`) opens `settings.SESSIONS_FILE`
  itself with `O_WRONLY | O_CREAT | O_TRUNC` and writes the JSON into it.
* `rotate_api_key` (`app/routers/auth.py`) opens `settings.SECRETS_FILE`
  itself with `O_WRONLY | O_CREAT | O_TRUNC` and writes the lines into it.
* `save_total_usage` (`app/routers/system.py`) writes a
  `tempfile.NamedTemporaryFile` in the target's directory and then
  `os.replace`s it over the target.
-/

/-- A file-system operation performed by a state-persisting function. -/
inductive FileOp where
  | openTrunc (path : String)
  | writeData (path : String) (data : String)
  | writeTemp (temp : String) (data : String)
  | rename (src : String) (dst : String)
deriving DecidableEq, Repr

/-- Operation trace of `save_sessions` (`SESSIONS_FILE = "/app/data/sessions.json"`). -/
def save_sessions_ops (data : String) : List FileOp :=
  [.openTrunc "/app/data/sessions.json",
   .writeData "/app/data/sessions.json" data]

/-- Operation trace of the write-back in `rotate_api_key`
(`SECRETS_FILE = "/app/.secrets"`). -/
def rotate_api_key_ops (data : String) : List FileOp :=
  [.openTrunc "/app/.secrets", .writeData "/app/.secrets" data]

/-- Operation trace of `save_total_usage` (`app/routers/system.py`). -/
def save_total_usage_ops (path temp data : String) : List FileOp :=
  [.writeTemp temp data, .rename temp path]

/-- Whether an operation opens or writes the target file itself. -/
def touchesTarget (target : String) (op : FileOp) : Bool :=
  match op with
  | .openTrunc p => p = target
  | .writeData p _ => p = target
  | _ => false

/-- Whether a trace writes the target file directly (truncating or
writing it in place), as opposed to only ever renaming onto it. -/
def writesTargetDirectly (tr : List FileOp) (target : String) : Bool :=
  tr.any (touchesTarget target)

/-- The atomic-write pattern of the spec: the data goes to a sibling
temporary file which is then renamed over the target. -/
def atomicSiblingWrite (tr : List FileOp) (target : String) : Bool :=
  match tr with
  | [.writeTemp t _, .rename t' dst] => t = t' && dst = target && t ≠ target
  | _ => false

/-! ## Update pipeline source-refresh ref selection

Two implementations coexist in the repository.

`src/hub-api/server.py`, `run_service_update`, under the `stable`
strategy:

```python
res_tags = subprocess.run("git ls-remote --tags origin | grep -o 'refs/tags/v\\?[0-9]\\+\\.[0-9]\\+\\.[0-9]\\+$' | cut -d'/' -f3 | sort -V | tail -n 1", ...)
latest_tag = res_tags.stdout.strip()
if not latest_tag:
    res_tags = subprocess.run("git ls-remote --tags origin | cut -d'/' -f3 | grep -v '\\^{}' | tail -n 1", ...)
    latest_tag = res_tags.stdout.strip()
if latest_tag: checkout latest_tag
else: checkout default_branch
```

So: the highest `v?X.Y.Z` tag under `sort -V`; else the last tag of the
`ls-remote` listing (which lists refs sorted by ref name); else the
default branch.  Among distinct tags with the *same* numeric triple
(`1.2.3` vs `v1.2.3`) `sort -V`'s tie order is abstracted here as the
later listing entry; the theorems below only use maximality of the
triple, which is tie-agnostic.

`src/lib/src/hub-api/app/routers/services.py`, `_run_update`:

```python
res_db = run_command(["git", "symbolic-ref", "refs/remotes/origin/HEAD"], ...)
default_branch = res_db.stdout.strip().replace("refs/remotes/origin/", "")
if not default_branch:
    default_branch = "master"  # Fallback
# Simply checkout default branch for now to guarantee functionality
run_command(["git", "checkout", "-f", default_branch], ...)
```

which checks out the default branch whatever the strategy and whatever
tags exist.
-/

/-- Digits-only parse of one version component (nonempty, all digits). -/
def parseNatDigits (cs : List Char) : Option Nat :=
  if cs.isEmpty || !cs.all Char.isDigit then none
  else some (cs.foldl (fun n c => n * 10 + (c.toNat - 48)) 0)

/-- The tag names matched by `grep -o 'refs/tags/v\?[0-9]\+\.[0-9]\+\.[0-9]\+$'`:
an optional leading `v` followed by exactly three dot-separated digit
groups.  Returns the numeric triple. -/
def semverParts (s : String) : Option (Nat × Nat × Nat) :=
  let cs := match s.data with
    | 'v' :: rest => rest
    | l => l
  match cs.splitOn '.' with
  | [a, b, c] =>
      match parseNatDigits a, parseNatDigits b, parseNatDigits c with
      | some x, some y, some z => some (x, y, z)
      | _, _, _ => none
  | _ => none

/-- `sort -V` order on the numeric triples (lexicographic). -/
def verLe : Nat × Nat × Nat → Nat × Nat × Nat → Bool
  | (a1, b1, c1), (a2, b2, c2) =>
    a1 < a2 || (a1 = a2 && (b1 < b2 || (b1 = b2 && c1 ≤ c2)))

/-- One step of selecting the version-maximal semantic-version tag:
ignore non-semver tags, keep the version-greater of the current best and
the new tag. -/
def pickStableTag (best : Option String) (t : String) : Option String :=
  match semverParts t with
  | none => best
  | some v =>
      match best with
      | none => some t
      | some b =>
          match semverParts b with
          | some vb => if verLe vb v then some t else some b
          | none => some t

/-- Model of `... | grep -o <semver> | cut -d'/' -f3 | sort -V | tail -n 1`:
the version-maximal semantic-version tag of the listing, `none` when the
listing has no semantic-version tag. -/
def latestSemverTag (tags : List String) : Option String :=
  tags.foldl pickStableTag none

/-- The ref checked out by `run_service_update` (`src/hub-api/server.py`)
under the `stable` strategy, as a function of the remote tag listing (in
`ls-remote` order) and the resolved default branch. -/
def run_service_update_stable_ref (tags : List String)
    (defaultBranch : String) : String :=
  match latestSemverTag tags with
  | some t => t
  | none =>
      match tags.getLast? with
      | some t => t
      | none => defaultBranch

/-- The constant string removed by
`.replace("refs/remotes/origin/", "")`. -/
def originRefStr : List Char := "refs/remotes/origin/".data

/-- Python `s.replace(pat, "")` for the fixed pattern
`"refs/remotes/origin/"`: remove every (left-to-right, non-overlapping)
occurrence.  Structural recursion on a fuel that bounds the length of
the remaining input (each step consumes at least one character). -/
def removeRunsAux : Nat → List Char → List Char
  | _, [] => []
  | 0, s => s
  | fuel + 1, c :: rest =>
      if originRefStr.isPrefixOf (c :: rest) then
        removeRunsAux fuel (rest.drop (originRefStr.length - 1))
      else
        c :: removeRunsAux fuel rest

/-- `s.replace("refs/remotes/origin/", "")`. -/
def removeOriginRuns (s : List Char) : List Char :=
  removeRunsAux s.length s

/-- Default-branch resolution in `_run_update`
(`app/routers/services.py`): strip the `symbolic-ref` output, delete
`"refs/remotes/origin/"`, fall back to `"master"` when empty. -/
def run_update_default_branch (symrefOut : String) : String :=
  let db := String.mk (removeOriginRuns (dropEdge Char.isWhitespace symrefOut.data))
  if db.data.isEmpty then "master" else db

/-- The ref checked out by `_run_update`'s source-refresh step
(`app/routers/services.py`): always the resolved default branch — the
strategy and the remote tags are not consulted
(`# Simply checkout default branch for now to guarantee functionality`). -/
def run_update_checkout_ref (_strategy : String) (_remoteTags : List String)
    (symrefOut : String) : String :=
  run_update_default_branch symrefOut

/-! ## Helper lemmas: the session table as a dict -/

theorem lookupTok_map_set_self {α : Type} (l : List (String × α)) (t : String) (v : α)
    (h : (lookupTok l t).isSome = true) :
    lookupTok (l.map fun p => if p.1 = t then (t, v) else p) t = some v := by
  induction l with
  | nil => simp [lookupTok] at h
  | cons p r ih =>
      simp only [List.map_cons]
      by_cases hp : p.1 = t
      · rw [if_pos hp, lookupTok, if_pos rfl]
      · rw [if_neg hp, lookupTok, if_neg hp]
        rw [lookupTok, if_neg hp] at h
        exact ih h

theorem lookupTok_append_single_self {α : Type} (l : List (String × α)) (t : String)
    (v : α) (h : lookupTok l t = none) :
    lookupTok (l ++ [(t, v)]) t = some v := by
  induction l with
  | nil => simp [lookupTok]
  | cons p r ih =>
      rw [lookupTok] at h
      by_cases hp : p.1 = t
      · rw [if_pos hp] at h; simp at h
      · rw [if_neg hp] at h
        rw [List.cons_append, lookupTok, if_neg hp]
        exact ih h

theorem lookupTok_setTok_self {α : Type} (l : List (String × α)) (t : String) (v : α) :
    lookupTok (setTok l t v) t = some v := by
  unfold setTok
  by_cases h : (lookupTok l t).isSome
  · rw [if_pos h]; exact lookupTok_map_set_self l t v h
  · rw [if_neg h]
    refine lookupTok_append_single_self l t v ?_
    cases hl : lookupTok l t with
    | none => rfl
    | some w => rw [hl] at h; simp at h

theorem lookupTok_map_set_ne {α : Type} (l : List (String × α)) (t t' : String)
    (v : α) (hne : t' ≠ t) :
    lookupTok (l.map fun p => if p.1 = t' then (t', v) else p) t =
      lookupTok l t := by
  induction l with
  | nil => rfl
  | cons p r ih =>
      simp only [List.map_cons]
      by_cases hp : p.1 = t'
      · have hpt : ¬p.1 = t := fun h => hne (hp.symm.trans h)
        rw [if_pos hp, lookupTok, if_neg hne, lookupTok, if_neg hpt, ih]
      · rw [if_neg hp]
        by_cases hq : p.1 = t
        · rw [lookupTok, if_pos hq, lookupTok, if_pos hq]
        · rw [lookupTok, if_neg hq, lookupTok, if_neg hq, ih]

theorem lookupTok_append_single_ne {α : Type} (l : List (String × α)) (t t' : String)
    (v : α) (hne : t' ≠ t) :
    lookupTok (l ++ [(t', v)]) t = lookupTok l t := by
  induction l with
  | nil => simp [lookupTok, hne]
  | cons p r ih =>
      by_cases hq : p.1 = t
      · rw [List.cons_append, lookupTok, if_pos hq, lookupTok, if_pos hq]
      · rw [List.cons_append, lookupTok, if_neg hq, lookupTok, if_neg hq, ih]

theorem lookupTok_setTok_ne {α : Type} (l : List (String × α)) (t t' : String) (v : α)
    (hne : t' ≠ t) : lookupTok (setTok l t' v) t = lookupTok l t := by
  unfold setTok
  split
  · exact lookupTok_map_set_ne l t t' v hne
  · exact lookupTok_append_single_ne l t t' v hne

theorem lookupTok_delTok_self {α : Type} (l : List (String × α)) (t : String) :
    lookupTok (delTok l t) t = none := by
  induction l with
  | nil => rfl
  | cons p r ih =>
      by_cases hp : p.1 = t
      · simpa [delTok, List.filter_cons, hp] using ih
      · simpa [delTok, List.filter_cons, hp, lookupTok] using ih

theorem lookupTok_delTok_ne {α : Type} (l : List (String × α)) (t t' : String)
    (hne : t' ≠ t) : lookupTok (delTok l t') t = lookupTok l t := by
  induction l with
  | nil => rfl
  | cons p r ih =>
      by_cases hp : p.1 = t'
      · have hpt : ¬p.1 = t := fun h => hne (hp.symm.trans h)
        rw [lookupTok, if_neg hpt]
        simpa [delTok, List.filter_cons, hp] using ih
      · by_cases hq : p.1 = t
        · have h2 : ¬t = t' := fun h => hne h.symm
          rw [lookupTok, if_pos hq]
          simp [delTok, List.filter_cons, hp, lookupTok, hq, h2]
        · rw [lookupTok, if_neg hq]
          simpa [delTok, List.filter_cons, hp, lookupTok, hq] using ih

theorem lookupTok_delTok_none {α : Type} (l : List (String × α)) (t t' : String)
    (h : lookupTok l t = none) : lookupTok (delTok l t') t = none := by
  by_cases hne : t' = t
  · subst hne; exact lookupTok_delTok_self l t'
  · rw [lookupTok_delTok_ne l t t' hne]; exact h

theorem lookupTok_foldl_delTok_none {α : Type} (ks : List String)
    (l : List (String × α)) (t : String) (h : lookupTok l t = none) :
    lookupTok (ks.foldl delTok l) t = none := by
  induction ks generalizing l with
  | nil => exact h
  | cons k ks' ih => exact ih (delTok l k) (lookupTok_delTok_none l t k h)

/-! ## Helper lemmas: session operations -/

theorem authOk_eq_false_of_none (s : SessionState) (t : String) (now : Nat)
    (h : lookupTok s.valid_sessions t = none) : authOk s t now = false := by
  unfold authOk get_current_user
  rw [h]
  rfl

theorem lookupTok_sessionStep_none (s : SessionState) (t : String)
    (op : SessionOp) (h : lookupTok s.valid_sessions t = none)
    (hop : issuesToken t op = false) :
    lookupTok (sessionStep s op).valid_sessions t = none := by
  cases op with
  | issue t' now timeout =>
      have hne : t' ≠ t := by simpa [issuesToken] using hop
      simpa [sessionStep, create_session, lookupTok_setTok_ne _ t t' _ hne]
        using h
  | auth t' now =>
      by_cases hne : t' = t
      · subst hne
        simp [sessionStep, get_current_user, h]
      · simp only [sessionStep, get_current_user]
        cases hl : lookupTok s.valid_sessions t' with
        | none => simpa [hl] using h
        | some e =>
            simp only [hl]
            by_cases hc : (!s.cleanup_enabled || decide (now < e)) = true
            · simp only [if_pos hc]
              simpa [lookupTok_setTok_ne _ t t' _ hne] using h
            · simp only [if_neg hc]
              simpa [lookupTok_delTok_ne _ t t' hne] using h
  | toggle b => simpa [sessionStep, toggle_session_cleanup] using h
  | sweep now =>
      simp only [sessionStep, sweepSessions]
      split
      · exact lookupTok_foldl_delTok_none _ _ t h
      · exact h

theorem lookupTok_sessionRun_none (ops : List SessionOp) (s : SessionState)
    (t : String) (h : lookupTok s.valid_sessions t = none)
    (hops : ∀ op ∈ ops, issuesToken t op = false) :
    lookupTok (sessionRun s ops).valid_sessions t = none := by
  induction ops generalizing s with
  | nil => exact h
  | cons op ops' ih =>
      exact ih (sessionStep s op)
        (lookupTok_sessionStep_none s t op h (hops op (.head _)))
        (fun o ho => hops o (.tail _ ho))

/-! ## Claim C1 -/

/-- Claim C1, counterexample: the claim fails as stated.  Issue a token
with expiry 10 while cleanup is enabled; at time 20 the expiry has passed
and `cleanup_enabled` is still true, yet after `toggle-session-cleanup(false)`
a subsequent authenticate call presenting that token succeeds — the
validity check `not cleanup_enabled or now < expiry` resurrects the
expired token. -/
theorem expired_token_resurrected_by_cleanup_toggle :
    (sessionRun initialSessionState [.issue "t" 0 10]).cleanup_enabled = true ∧
    lookupTok (sessionRun initialSessionState
      [.issue "t" 0 10]).valid_sessions "t" = some 10 ∧
    10 < 20 ∧
    authOk (toggle_session_cleanup
      (sessionRun initialSessionState [.issue "t" 0 10]) false) "t" 20 = true := by
  decide

/-- Claim C1 (amended): if a token's recorded expiry has passed and
`cleanup_enabled` is (still) true at the moment an authenticate call
presents it, that call fails and deletes the token; thereafter, along any
operation sequence that does not issue the same token string again, no
authenticate call ever succeeds for it — regardless of later toggles. -/
theorem expired_token_never_authorizes_while_cleanup_enabled
    (s : SessionState) (t : String) (e now : Nat)
    (hc : s.cleanup_enabled = true)
    (he : lookupTok s.valid_sessions t = some e) (hexp : e ≤ now) :
    authOk s t now = false ∧
    ∀ ops, (∀ op ∈ ops, issuesToken t op = false) → ∀ now2,
      authOk (sessionRun (get_current_user s t now).2 ops) t now2 = false := by
  have hcond : (!s.cleanup_enabled || decide (now < e)) = false := by
    simp [hc, Nat.not_lt.mpr hexp]
  have hstate : get_current_user s t now =
      (none, { s with valid_sessions := delTok s.valid_sessions t }) := by
    unfold get_current_user
    simp only [he]
    rw [if_neg (by simp [hcond])]
  refine ⟨?_, ?_⟩
  · unfold authOk
    rw [hstate]
    rfl
  · intro ops hops now2
    apply authOk_eq_false_of_none
    apply lookupTok_sessionRun_none ops _ t _ hops
    rw [hstate]
    exact lookupTok_delTok_self _ t

/-- Witness for the amended C1 theorem at a concrete state: token `"t"`
expired at 10, authenticate at 20 fails, and after a sweep and a foreign
authenticate it still fails at time 50. -/
theorem expired_token_never_authorizes_witness :
    authOk ⟨[("t", 10)], true⟩ "t" 20 = false ∧
    authOk (sessionRun (get_current_user ⟨[("t", 10)], true⟩ "t" 20).2
      [.sweep 30, .auth "u" 40]) "t" 50 = false := by
  have h := expired_token_never_authorizes_while_cleanup_enabled
    ⟨[("t", 10)], true⟩ "t" 10 20 rfl (by decide) (by decide)
  exact ⟨h.1, h.2 [.sweep 30, .auth "u" 40] (by decide) 50⟩

/-! ## Claim C2 -/

theorem runUpdates_length_le (ops : List (Option Entry)) :
    ∀ h : List Entry, h.length ≤ 5 → (runUpdates h ops).length ≤ 5 := by
  induction ops with
  | nil => intro h hh; exact hh
  | cons o os ih =>
      intro h hh
      cases o with
      | none => exact ih h hh
      | some e =>
          refine ih _ ?_
          simp only [updateOp, updateHistory, List.length_take]
          omega

theorem runUpdates_skip (ops : List (Option Entry)) (h : List Entry)
    (hnone : ∀ o ∈ ops, o = none) : runUpdates h ops = h := by
  induction ops generalizing h with
  | nil => rfl
  | cons o os ih =>
      have ho : o = none := hnone o (.head _)
      subst ho
      exact ih h (fun o' ho' => hnone o' (.tail _ ho'))

/-- Claim C2: after any number of updates starting from the lazily
created (empty) history, the rollback history has length at most 5, and
whenever the most recent checkpoint-recording update recorded entry `e`
(followed only by updates that recorded nothing), `e` sits at index 0. -/
theorem rollback_history_bounded_and_newest_first (ops : List (Option Entry)) :
    (runUpdates [] ops).length ≤ 5 ∧
    ∀ ops1 e ops2, ops = ops1 ++ some e :: ops2 → (∀ o ∈ ops2, o = none) →
      (runUpdates [] ops).head? = some e := by
  constructor
  · exact runUpdates_length_le ops [] (by simp)
  · intro ops1 e ops2 hsplit hnone
    subst hsplit
    have h1 : runUpdates [] (ops1 ++ some e :: ops2)
        = runUpdates (updateOp (runUpdates [] ops1) (some e)) ops2 := by
      simp [runUpdates, List.foldl_append]
    rw [h1, runUpdates_skip ops2 _ hnone]
    rfl

/-- Witness for C2: two checkpoint-recording updates leave the later
checkpoint at index 0 of a history of length at most 5. -/
theorem rollback_history_witness :
    (runUpdates [] [some ⟨"t1", some "h1", none⟩,
      some ⟨"t2", some "h2", none⟩]).length ≤ 5 ∧
    (runUpdates [] [some ⟨"t1", some "h1", none⟩,
      some ⟨"t2", some "h2", none⟩]).head? = some ⟨"t2", some "h2", none⟩ := by
  have h := rollback_history_bounded_and_newest_first
    [some ⟨"t1", some "h1", none⟩, some ⟨"t2", some "h2", none⟩]
  exact ⟨h.1, h.2 [some ⟨"t1", some "h1", none⟩] ⟨"t2", some "h2", none⟩ []
    rfl (by simp)⟩

/-! ## Claim C3 -/

theorem sanitize_idem (x y : String) (h : sanitize_service_name x = some y) :
    sanitize_service_name y = some y := by
  unfold sanitize_service_name at h
  by_cases hx : x.data.isEmpty
  · rw [if_pos hx] at h; cases h
  · rw [if_neg hx] at h
    by_cases hf : (x.data.filter allowedChar).isEmpty
    · simp only [hf, if_true] at h; cases h
    · simp only [hf, if_false] at h
      injection h with h
      subst h
      unfold sanitize_service_name
      have hdata : (String.mk (x.data.filter allowedChar)).data
          = x.data.filter allowedChar := rfl
      have hff : (x.data.filter allowedChar).filter allowedChar
          = x.data.filter allowedChar :=
        List.filter_eq_self.mpr (fun a ha => (List.mem_filter.mp ha).2)
      simp [sanitize_service_name, hdata, hff, hf]

/-- Claim C3 counterexample: `sanitize("ab/../c")` does not yield an
invalid result — the disallowed characters are stripped and the valid
(mangled) name `"abc"` is returned. -/
theorem sanitize_path_traversal_not_rejected :
    sanitize_service_name "ab/../c" = some "abc" ∧
    (sanitize_service_name "ab/../c").isSome = true := by
  decide

/-- Claim C3 (amended): the sanitizer is idempotent; `sanitize("")` is
invalid; `sanitize("ab/../c")` strips the disallowed characters and
returns the valid name `"abc"` (it does not reject); `"my-service_1"` is
unchanged; and an input whose sanitization is invalid yields a 400
InvalidInput from the mutation endpoints with no job started. -/
theorem sanitizer_idempotent_strips_and_rejects_empty :
    (∀ x y, sanitize_service_name x = some y →
      sanitize_service_name y = some y) ∧
    sanitize_service_name "" = none ∧
    sanitize_service_name "ab/../c" = some "abc" ∧
    sanitize_service_name "my-service_1" = some "my-service_1" ∧
    (∀ raw, sanitize_service_name raw = none →
      update_single_service raw = .error 400 ∧
      ∀ fp, rollback_single_service raw fp = .error 400) := by
  refine ⟨sanitize_idem, by decide, by decide, by decide, ?_⟩
  intro raw h
  constructor
  · simp [update_single_service, h]
  · intro fp
    simp [rollback_single_service, h]

/-- Witness for the amended C3 theorem: idempotence instantiated at
`"a!"` and rejection instantiated at `"!!"`. -/
theorem sanitizer_idempotent_witness :
    sanitize_service_name "a" = some "a" ∧
    update_single_service "!!" = .error 400 := by
  refine ⟨?_, ?_⟩
  · exact sanitizer_idempotent_strips_and_rejects_empty.1 "a!" "a" (by decide)
  · exact (sanitizer_idempotent_strips_and_rejects_empty.2.2.2.2 "!!"
      (by decide)).1

/-! ## Claim C5 -/

/-- Claim C5 (code bug): the sessions and secrets writers do not follow
the temporary-file-plus-rename pattern — `save_sessions` and
`rotate_api_key` open the target itself with `O_WRONLY|O_CREAT|O_TRUNC`
and write it in place, so a concurrent reader can observe a truncated or
partially written file; `save_total_usage` is the one writer that does
use the sibling-temp-plus-rename pattern. -/
theorem state_writes_are_in_place_not_atomic :
    writesTargetDirectly (save_sessions_ops "sessions-json")
      "/app/data/sessions.json" = true ∧
    atomicSiblingWrite (save_sessions_ops "sessions-json")
      "/app/data/sessions.json" = false ∧
    writesTargetDirectly (rotate_api_key_ops "secrets-data")
      "/app/.secrets" = true ∧
    atomicSiblingWrite (rotate_api_key_ops "secrets-data")
      "/app/.secrets" = false ∧
    atomicSiblingWrite
      (save_total_usage_ops "/app/data/usage.json" "/app/data/tmpXYZ" "usage")
      "/app/data/usage.json" = true := by
  decide

/-! ## Claim C8 -/

/-- Claim C8: with a non-empty history and no hash argument,
`_run_rollback` targets the newest entry `history[0]`. -/
theorem rollback_no_hash_targets_newest (history : List Entry)
    (hne : history ≠ []) :
    rollbackSelect history none = history.head? ∧
    (rollbackSelect history none).isSome = true := by
  have h1 : rollbackSelect history none = history.head? := rfl
  cases history with
  | nil => exact absurd rfl hne
  | cons e t => exact ⟨h1, by rw [h1]; rfl⟩

/-- Witness for C8 at a singleton history. -/
theorem rollback_no_hash_witness :
    rollbackSelect [⟨"t1", some "h1", none⟩] none
      = some ⟨"t1", some "h1", none⟩ := by
  have h := rollback_no_hash_targets_newest [⟨"t1", some "h1", none⟩]
    (by simp)
  simpa using h.1

/-! ## Claim C9 -/

/-- Claim C9 counterexample: the service name `""` has no rollback
history file, yet `/rollback-service` fails with 400 (invalid name), not
404 — the sanitizer rejects before the history-existence check runs. -/
theorem rollback_endpoint_empty_name_gives_400 :
    rollback_single_service "" (fun _ => false) = .error 400 ∧
    (400 : Nat) ≠ 404 := by
  exact ⟨rfl, by decide⟩

/-- Claim C9 (amended): for every service name whose sanitization
succeeds and for which no rollback history file exists, the
`/rollback-service` request fails synchronously with 404 and no rollback
job is started (the error return precedes `background_tasks.add_task`). -/
theorem rollback_endpoint_404_when_no_history (raw service : String)
    (fp : String → Bool) (hs : sanitize_service_name raw = some service)
    (hf : fp ("/app/data/rollback_" ++ service ++ ".json") = false) :
    rollback_single_service raw fp = .error 404 := by
  simp [rollback_single_service, hs, hf]

/-- Witness for the amended C9 theorem: service `"svc"`, no files. -/
theorem rollback_endpoint_404_witness :
    rollback_single_service "svc" (fun _ => false) = .error 404 :=
  rollback_endpoint_404_when_no_history "svc" "svc" (fun _ => false)
    (by decide) rfl

/-! ## Claim C10 -/

/-- Claim C10: a supplied hash/image id matching no history entry does
not produce a not-found failure — `_run_rollback` silently falls back to
the newest entry `history[0]`, exactly as if no hash had been supplied. -/
theorem rollback_unmatched_hash_falls_back (history : List Entry)
    (h : String) (hne : history ≠ [])
    (hnomatch : ∀ e ∈ history, e.hash ≠ some h ∧ e.image ≠ some h) :
    rollbackSelect history (some h) = history.head? ∧
    (rollbackSelect history (some h)).isSome = true := by
  have hfind : history.find? (entryMatches h) = none := by
    rw [List.find?_eq_none]
    intro e he
    have hm := hnomatch e he
    simp [entryMatches, hm.1, hm.2]
  have hsel : rollbackSelect history (some h) = history.head? := by
    simp [rollbackSelect, hfind]
  cases history with
  | nil => exact absurd rfl hne
  | cons e t => exact ⟨hsel, by rw [hsel]; rfl⟩

/-- Witness for C10: hash `"zzz"` matches nothing and the newest entry
is selected. -/
theorem rollback_unmatched_hash_witness :
    rollbackSelect [⟨"t1", some "h1", none⟩] (some "zzz")
      = some ⟨"t1", some "h1", none⟩ := by
  have h := rollback_unmatched_hash_falls_back [⟨"t1", some "h1", none⟩]
    "zzz" (by simp) (by decide)
  simpa using h.1

/-! ## Claim C6 -/

/-- Whether an operation re-enables cleanup (`toggle_session_cleanup(true)`). -/
def enablesCleanup (op : SessionOp) : Bool :=
  match op with
  | .toggle true => true
  | _ => false

theorem lookupTok_setTok_isSome {α : Type} (l : List (String × α)) (t t' : String)
    (v : α) (hm : (lookupTok l t).isSome = true) :
    (lookupTok (setTok l t' v) t).isSome = true := by
  by_cases hne : t' = t
  · subst hne; rw [lookupTok_setTok_self]; rfl
  · rw [lookupTok_setTok_ne l t t' v hne]; exact hm

theorem disabled_token_persists_step (s : SessionState) (t : String)
    (op : SessionOp) (hc : s.cleanup_enabled = false)
    (hm : (lookupTok s.valid_sessions t).isSome = true)
    (hop : enablesCleanup op = false) :
    (sessionStep s op).cleanup_enabled = false ∧
    (lookupTok (sessionStep s op).valid_sessions t).isSome = true := by
  cases op with
  | issue t' now timeout =>
      exact ⟨hc, lookupTok_setTok_isSome _ t t' _ hm⟩
  | auth t' now =>
      simp only [sessionStep, get_current_user]
      cases hl : lookupTok s.valid_sessions t' with
      | none => exact ⟨hc, hm⟩
      | some e =>
          have hcond : (!s.cleanup_enabled || decide (now < e)) = true := by
            simp [hc]
          simp only [if_pos hcond]
          exact ⟨hc, lookupTok_setTok_isSome _ t t' _ hm⟩
  | toggle b =>
      cases b with
      | false => exact ⟨rfl, hm⟩
      | true => simp [enablesCleanup] at hop
  | sweep now =>
      have : sessionStep s (.sweep now) = s := by
        simp [sessionStep, sweepSessions, hc]
      rw [this]
      exact ⟨hc, hm⟩

theorem disabled_token_persists_run (ops : List SessionOp) (s : SessionState)
    (t : String) (hc : s.cleanup_enabled = false)
    (hm : (lookupTok s.valid_sessions t).isSome = true)
    (hops : ∀ op ∈ ops, enablesCleanup op = false) :
    (sessionRun s ops).cleanup_enabled = false ∧
    (lookupTok (sessionRun s ops).valid_sessions t).isSome = true := by
  induction ops generalizing s with
  | nil => exact ⟨hc, hm⟩
  | cons op ops' ih =>
      have hstep := disabled_token_persists_step s t op hc hm
        (hops op (.head _))
      exact ih (sessionStep s op) hstep.1 hstep.2
        (fun o ho => hops o (.tail _ ho))

theorem authOk_of_disabled_present (s : SessionState) (t : String) (now : Nat)
    (hc : s.cleanup_enabled = false)
    (hm : (lookupTok s.valid_sessions t).isSome = true) :
    authOk s t now = true := by
  unfold authOk get_current_user
  cases hl : lookupTok s.valid_sessions t with
  | none => simp [hl] at hm
  | some e => simp [hl, hc]

theorem foldl_delTok_eq_filter (ks : List String) (l : List (String × Nat)) :
    ks.foldl delTok l = l.filter (fun p => decide (p.1 ∉ ks)) := by
  induction ks generalizing l with
  | nil => simp
  | cons k ks' ih =>
      rw [List.foldl_cons, ih (delTok l k)]
      unfold delTok
      rw [List.filter_filter]
      apply List.filter_congr
      intro p _
      by_cases h1 : p.1 = k <;> by_cases h2 : p.1 ∈ ks' <;>
        simp [h1, h2]

theorem sweep_removes_exactly_expired (s : SessionState) (now : Nat)
    (hc : s.cleanup_enabled = true)
    (hnd : (s.valid_sessions.map Prod.fst).Nodup) :
    (sweepSessions s now).valid_sessions
      = s.valid_sessions.filter (fun p => decide (¬now > p.2)) := by
  have hb : (sweepSessions s now).valid_sessions
      = ((s.valid_sessions.filter (fun p => decide (now > p.2))).map
          Prod.fst).foldl delTok s.valid_sessions := by
    simp [sweepSessions, hc]
  rw [hb, foldl_delTok_eq_filter]
  apply List.filter_congr
  intro p hp
  by_cases hexp : now > p.2
  · have hmem : p.1 ∈ (s.valid_sessions.filter
        (fun q => decide (now > q.2))).map Prod.fst :=
      List.mem_map_of_mem _ (List.mem_filter.mpr ⟨hp, by simp [hexp]⟩)
    simp [hmem, hexp]
  · have hnot : p.1 ∉ (s.valid_sessions.filter
        (fun q => decide (now > q.2))).map Prod.fst := by
      intro hmem
      rcases List.mem_map.mp hmem with ⟨q, hqf, hq1⟩
      have hql : q ∈ s.valid_sessions := (List.mem_filter.mp hqf).1
      have hqe : now > q.2 := by simpa using (List.mem_filter.mp hqf).2
      have hqp : q = p := List.inj_on_of_nodup_map hnd hql hp hq1
      rw [hqp] at hqe
      exact hexp hqe
    simp [hnot, hexp]

/-- Claim C6: for a token present in the session table, after
`toggle-session-cleanup(false)` any sequence of operations that never
re-enables cleanup leaves the token in the table and every authenticate
call presenting it succeeds, regardless of elapsed time; and after
`toggle-session-cleanup(true)` the next sweep run removes exactly the
entries whose expiry has passed (`now > expiry`). -/
theorem cleanup_toggle_governs_expiry (s : SessionState) (t : String)
    (e : Nat) (hm : lookupTok s.valid_sessions t = some e)
    (hnd : (s.valid_sessions.map Prod.fst).Nodup) :
    (∀ ops, (∀ op ∈ ops, enablesCleanup op = false) → ∀ now,
      (lookupTok (sessionRun (toggle_session_cleanup s false)
        ops).valid_sessions t).isSome = true ∧
      authOk (sessionRun (toggle_session_cleanup s false) ops) t now
        = true) ∧
    (∀ now, (sweepSessions (toggle_session_cleanup s true) now).valid_sessions
      = s.valid_sessions.filter (fun p => decide (¬now > p.2))) := by
  constructor
  · intro ops hops now
    have hrun := disabled_token_persists_run ops
      (toggle_session_cleanup s false) t rfl
      (by show (lookupTok s.valid_sessions t).isSome = true; rw [hm]; rfl)
      hops
    exact ⟨hrun.2, authOk_of_disabled_present _ t now hrun.1 hrun.2⟩
  · intro now
    exact sweep_removes_exactly_expired (toggle_session_cleanup s true) now
      rfl hnd

/-- Witness for C6: token `"t"` (expiry 10) survives a sweep and a
foreign authenticate while cleanup is off and still authenticates at
time 1000000; re-enabling cleanup and sweeping at time 100 removes
exactly the expired entry. -/
theorem cleanup_toggle_witness :
    authOk (sessionRun
      (toggle_session_cleanup ⟨[("t", 10), ("u", 5000)], true⟩ false)
      [.sweep 1000, .auth "u" 2000]) "t" 1000000 = true ∧
    (sweepSessions
      (toggle_session_cleanup ⟨[("t", 10), ("u", 5000)], true⟩ true)
      100).valid_sessions = [("u", 5000)] := by
  have h := cleanup_toggle_governs_expiry ⟨[("t", 10), ("u", 5000)], true⟩
    "t" 10 (by decide) (by decide)
  refine ⟨(h.1 [.sweep 1000, .auth "u" 2000] (by decide) 1000000).2, ?_⟩
  rw [h.2 100]
  decide

/-! ## Claim C7 -/

theorem verLe_refl (a : Nat × Nat × Nat) : verLe a a = true := by
  obtain ⟨x, y, z⟩ := a
  simp [verLe]

theorem verLe_total (a b : Nat × Nat × Nat) :
    verLe a b = true ∨ verLe b a = true := by
  obtain ⟨x1, y1, z1⟩ := a
  obtain ⟨x2, y2, z2⟩ := b
  simp [verLe]
  omega

theorem verLe_trans (a b c : Nat × Nat × Nat) (h1 : verLe a b = true)
    (h2 : verLe b c = true) : verLe a c = true := by
  obtain ⟨x1, y1, z1⟩ := a
  obtain ⟨x2, y2, z2⟩ := b
  obtain ⟨x3, y3, z3⟩ := c
  simp [verLe] at h1 h2 ⊢
  omega

theorem pickStableTag_fold_spec (tags : List String) :
    ∀ (acc : Option String) (t : String),
    (∀ b, acc = some b → (semverParts b).isSome = true) →
    tags.foldl pickStableTag acc = some t →
    (semverParts t).isSome = true ∧
    (t ∈ tags ∨ acc = some t) ∧
    (∀ u ∈ tags, ∀ vu vt, semverParts u = some vu →
      semverParts t = some vt → verLe vu vt = true) ∧
    (∀ b vb vt, acc = some b → semverParts b = some vb →
      semverParts t = some vt → verLe vb vt = true) := by
  induction tags with
  | nil =>
      intro acc t hacc hfold
      rw [List.foldl_nil] at hfold
      refine ⟨hacc t hfold, Or.inr hfold, ?_, ?_⟩
      · intro u hu; cases hu
      · intro b vb vt hb hsb hst
        rw [hfold] at hb
        have hbt : t = b := Option.some.inj hb
        rw [← hbt, hst] at hsb
        rw [Option.some.inj hsb]
        exact verLe_refl vb
  | cons u us ih =>
      intro acc t hacc hfold
      rw [List.foldl_cons] at hfold
      cases hsu : semverParts u with
      | none =>
          have hacc' : pickStableTag acc u = acc := by
            simp [pickStableTag, hsu]
          rw [hacc'] at hfold
          obtain ⟨h1, h2, h3, h4⟩ := ih acc t hacc hfold
          refine ⟨h1, ?_, ?_, h4⟩
          · rcases h2 with h2 | h2
            · exact Or.inl (.tail _ h2)
            · exact Or.inr h2
          · intro u' hu' vu vt hsvu hsvt
            rcases List.mem_cons.mp hu' with rfl | hu'
            · rw [hsu] at hsvu; cases hsvu
            · exact h3 u' hu' vu vt hsvu hsvt
      | some v =>
          cases acc with
          | none =>
              have hacc' : pickStableTag none u = some u := by
                simp [pickStableTag, hsu]
              rw [hacc'] at hfold
              obtain ⟨h1, h2, h3, h4⟩ := ih (some u) t
                (by intro b hb
                    rw [← Option.some.inj hb, hsu]; rfl)
                hfold
              refine ⟨h1, ?_, ?_, ?_⟩
              · rcases h2 with h2 | h2
                · exact Or.inl (.tail _ h2)
                · rw [← Option.some.inj h2.symm]
                  exact Or.inl (.head _)
              · intro u' hu' vu vt hsvu hsvt
                rcases List.mem_cons.mp hu' with rfl | hu'
                · rw [hsu] at hsvu
                  rw [← Option.some.inj hsvu]
                  exact h4 u' v vt rfl hsu hsvt
                · exact h3 u' hu' vu vt hsvu hsvt
              · intro b vb vt hb _ _
                exact Option.noConfusion hb
          | some b0 =>
              obtain ⟨vb0, hsb0⟩ : ∃ w, semverParts b0 = some w := by
                have hiss := hacc b0 rfl
                cases hw : semverParts b0 with
                | none => rw [hw] at hiss; cases hiss
                | some w => exact ⟨w, rfl⟩
              by_cases hle : verLe vb0 v = true
              · have hacc' : pickStableTag (some b0) u = some u := by
                  simp [pickStableTag, hsu, hsb0, hle]
                rw [hacc'] at hfold
                obtain ⟨h1, h2, h3, h4⟩ := ih (some u) t
                  (by intro b hb
                      rw [← Option.some.inj hb, hsu]; rfl)
                  hfold
                refine ⟨h1, ?_, ?_, ?_⟩
                · rcases h2 with h2 | h2
                  · exact Or.inl (.tail _ h2)
                  · rw [← Option.some.inj h2.symm]
                    exact Or.inl (.head _)
                · intro u' hu' vu vt hsvu hsvt
                  rcases List.mem_cons.mp hu' with rfl | hu'
                  · rw [hsu] at hsvu
                    rw [← Option.some.inj hsvu]
                    exact h4 u' v vt rfl hsu hsvt
                  · exact h3 u' hu' vu vt hsvu hsvt
                · intro b vb vt hb hsvb hsvt
                  rw [← Option.some.inj hb, hsb0] at hsvb
                  rw [← Option.some.inj hsvb]
                  exact verLe_trans vb0 v vt hle (h4 u v vt rfl hsu hsvt)
              · have hacc' : pickStableTag (some b0) u = some b0 := by
                  simp [pickStableTag, hsu, hsb0, hle]
                rw [hacc'] at hfold
                obtain ⟨h1, h2, h3, h4⟩ := ih (some b0) t hacc hfold
                refine ⟨h1, ?_, ?_, h4⟩
                · rcases h2 with h2 | h2
                  · exact Or.inl (.tail _ h2)
                  · exact Or.inr h2
                · intro u' hu' vu vt hsvu hsvt
                  rcases List.mem_cons.mp hu' with rfl | hu'
                  · rw [hsu] at hsvu
                    rw [← Option.some.inj hsvu]
                    have hvb0 : verLe v vb0 = true := by
                      rcases verLe_total vb0 v with hto | hto
                      · exact absurd hto hle
                      · exact hto
                    exact verLe_trans v vb0 vt hvb0
                      (h4 b0 vb0 vt rfl hsb0 hsvt)
                  · exact h3 u' hu' vu vt hsvu hsvt

theorem latestSemverTag_spec (tags : List String) (t : String)
    (h : latestSemverTag tags = some t) :
    t ∈ tags ∧ (semverParts t).isSome = true ∧
    ∀ u ∈ tags, ∀ vu vt, semverParts u = some vu →
      semverParts t = some vt → verLe vu vt = true := by
  have hs := pickStableTag_fold_spec tags none t (by intro b hb; cases hb) h
  refine ⟨?_, hs.1, hs.2.2.1⟩
  rcases hs.2.1 with hmem | habs
  · exact hmem
  · cases habs

theorem latestSemverTag_none (tags : List String)
    (h : ∀ u ∈ tags, semverParts u = none) : latestSemverTag tags = none := by
  induction tags with
  | nil => rfl
  | cons u us ih =>
      have hu : semverParts u = none := h u (.head _)
      show (u :: us).foldl pickStableTag none = none
      rw [List.foldl_cons]
      have hp : pickStableTag none u = none := by simp [pickStableTag, hu]
      rw [hp]
      exact ih (fun u' hu' => h u' (.tail _ hu'))

/-- Claim C7 counterexample: in the modular pipeline (`_run_update`,
`app/routers/services.py`), under the `stable` strategy with the
semantic-version tag `v9.9.9` present on the remote, the checked-out ref
of the source-refresh step is the resolved default branch `main`, not
the highest semantic-version tag. -/
theorem stable_update_checks_out_default_branch :
    run_update_checkout_ref "stable" ["v9.9.9"] "refs/remotes/origin/main\n"
      = "main" ∧
    (semverParts "v9.9.9").isSome = true ∧
    ("main" : String) ≠ "v9.9.9" := by
  decide

/-- Claim C7 (amended): in the legacy pipeline (`run_service_update`,
`src/hub-api/server.py`) under `stable`, the checked-out ref is a
version-maximal semantic-version tag of the remote listing; when no
semantic-version tag exists it is the final tag of the (ref-name-sorted)
`ls-remote` listing, not the most recently created tag; when no tag
exists at all it is the resolved default branch, so the step still
completes.  The modular pipeline (`_run_update`,
`app/routers/services.py`) checks out the resolved default branch
regardless of strategy and tags. -/
theorem stable_ref_selection (tags : List String) (db : String) :
    (∀ t, latestSemverTag tags = some t →
      run_service_update_stable_ref tags db = t ∧ t ∈ tags ∧
      (semverParts t).isSome = true ∧
      ∀ u ∈ tags, ∀ vu vt, semverParts u = some vu →
        semverParts t = some vt → verLe vu vt = true) ∧
    ((∀ u ∈ tags, semverParts u = none) →
      run_service_update_stable_ref tags db = (tags.getLast?).getD db) ∧
    (∀ strategy1 strategy2 tags1 tags2 symref,
      run_update_checkout_ref strategy1 tags1 symref
        = run_update_checkout_ref strategy2 tags2 symref) := by
  refine ⟨?_, ?_, fun _ _ _ _ _ => rfl⟩
  · intro t ht
    have hs := latestSemverTag_spec tags t ht
    refine ⟨?_, hs.1, hs.2.1, hs.2.2⟩
    simp [run_service_update_stable_ref, ht]
  · intro hnone
    have h0 := latestSemverTag_none tags hnone
    simp only [run_service_update_stable_ref, h0]
    cases hl : tags.getLast? <;> simp [hl]

/-- Witness for the amended C7 theorem: `v1.10.0` wins over `v1.9.0` by
version sort, the non-semver listing falls back to its last entry, and
an empty listing falls back to the default branch. -/
theorem stable_ref_selection_witness :
    run_service_update_stable_ref ["v1.9.0", "v1.10.0", "zzz"] "main"
      = "v1.10.0" ∧
    run_service_update_stable_ref ["alpha", "zeta"] "main" = "zeta" ∧
    run_service_update_stable_ref [] "main" = "main" := by
  refine ⟨?_, ?_, ?_⟩
  · exact ((stable_ref_selection ["v1.9.0", "v1.10.0", "zzz"] "main").1
      "v1.10.0" (by decide)).1
  · have h := (stable_ref_selection ["alpha", "zeta"] "main").2.1 (by decide)
    simpa using h
  · have h := (stable_ref_selection [] "main").2.1 (by decide)
    simpa using h

/-! ## Claim C4

The `.secrets` writers always emit `KEY='value'` lines, so the store
round-trips through the parser whenever keys contain no `=` or newline
and do not start with whitespace, and values contain no newline and do
not start or end with a quote character.  These predicates hold for
every store the writers themselves produce.
-/

/-- A key in the writer's own format: no `=`, no newline, no leading
whitespace. -/
def cleanKey (k : String) : Bool :=
  !decide ('=' ∈ k.data) && !decide ('\n' ∈ k.data) &&
  (match k.data.head? with
   | some c => !c.isWhitespace
   | none => true)

/-- A value that survives the quote-stripping read-back: no newline, no
single or double quote at either end. -/
def cleanVal (v : String) : Bool :=
  !decide ('\n' ∈ v.data) &&
  (match v.data.head? with
   | some c => !decide (c = '\'') && !decide (c = '"')
   | none => true) &&
  (match v.data.getLast? with
   | some c => !decide (c = '\'') && !decide (c = '"')
   | none => true)

theorem cleanKey_parts (k : String) (hk : cleanKey k = true) :
    '=' ∉ k.data ∧
    ∀ c, k.data.head? = some c → c.isWhitespace = false := by
  constructor
  · unfold cleanKey at hk
    simp only [Bool.and_eq_true, Bool.not_eq_true',
      decide_eq_false_iff_not] at hk
    exact hk.1.1
  · intro c hc
    unfold cleanKey at hk
    rw [hc] at hk
    simp only [Bool.and_eq_true, Bool.not_eq_true'] at hk
    exact hk.2

theorem cleanVal_parts (v : String) (hv : cleanVal v = true) :
    (∀ c, v.data.head? = some c → ¬c = '\'' ∧ ¬c = '"') ∧
    (∀ c, v.data.getLast? = some c → ¬c = '\'' ∧ ¬c = '"') := by
  constructor
  · intro c hc
    unfold cleanVal at hv
    rw [hc] at hv
    simp only [Bool.and_eq_true, Bool.not_eq_true',
      decide_eq_false_iff_not] at hv
    exact hv.1.2
  · intro c hc
    unfold cleanVal at hv
    rw [hc] at hv
    simp only [Bool.and_eq_true, Bool.not_eq_true',
      decide_eq_false_iff_not] at hv
    exact hv.2

theorem dropWhile_eq_self_of_head (p : Char → Bool) (l : List Char)
    (h : ∀ c, l.head? = some c → p c = false) : l.dropWhile p = l := by
  cases l with
  | nil => rfl
  | cons a t =>
      have ha := h a rfl
      rw [List.dropWhile_cons_of_neg (by simp [ha])]

theorem dropEdge_eq_self (p : Char → Bool) (l : List Char)
    (h1 : ∀ c, l.head? = some c → p c = false)
    (h2 : ∀ c, l.getLast? = some c → p c = false) : dropEdge p l = l := by
  unfold dropEdge
  rw [dropWhile_eq_self_of_head p l h1]
  rw [dropWhile_eq_self_of_head p l.reverse
    (by intro c hc; exact h2 c (by rwa [List.head?_reverse] at hc))]
  exact List.reverse_reverse l

theorem dropEdge_wrap (q : Char) (l : List Char)
    (h1 : ∀ c, l.head? = some c → ¬c = q)
    (h2 : ∀ c, l.getLast? = some c → ¬c = q) :
    dropEdge (fun c => decide (c = q)) (q :: (l ++ [q])) = l := by
  unfold dropEdge
  rw [@List.dropWhile_cons_of_pos Char (fun c => decide (c = q)) q
    (l ++ [q]) (by simp)]
  cases l with
  | nil => simp
  | cons a t =>
      rw [show ((a :: t) ++ [q]) = a :: (t ++ [q]) from rfl]
      rw [List.dropWhile_cons_of_neg (by simp [h1 a rfl])]
      have hrev : (a :: (t ++ [q])).reverse = q :: (a :: t).reverse := by
        simp
      rw [hrev, @List.dropWhile_cons_of_pos Char (fun c => decide (c = q))
        q ((a :: t).reverse) (by simp)]
      rw [dropWhile_eq_self_of_head _ _ (by
        intro c hc
        rw [List.head?_reverse] at hc
        simp [h2 c hc])]
      exact List.reverse_reverse _

theorem stripQuotes_wrap (v : String) (hv : cleanVal v = true) :
    stripQuotes ('\'' :: (v.data ++ ['\''])) = v.data := by
  have hvp := cleanVal_parts v hv
  unfold stripQuotes
  rw [dropEdge_wrap '\'' v.data
    (fun c hc => (hvp.1 c hc).1) (fun c hc => (hvp.2 c hc).1)]
  apply dropEdge_eq_self
  · intro c hc
    simp [(hvp.1 c hc).2]
  · intro c hc
    simp [(hvp.2 c hc).2]

theorem split_eq_parts (kd rest : List Char) (hk : '=' ∉ kd) :
    (kd ++ '=' :: rest).takeWhile notEqSign = kd ∧
    (kd ++ '=' :: rest).dropWhile notEqSign = '=' :: rest := by
  induction kd with
  | nil =>
      refine ⟨?_, ?_⟩
      · rw [List.nil_append,
          List.takeWhile_cons_of_neg (by simp [notEqSign])]
      · rw [List.nil_append,
          List.dropWhile_cons_of_neg (by simp [notEqSign])]
  | cons a t ih =>
      have ha : a ≠ '=' := fun h => hk (by rw [h]; exact .head _)
      have hna : notEqSign a = true := by simp [notEqSign, ha]
      have ht : '=' ∉ t := fun h => hk (.tail _ h)
      obtain ⟨ih1, ih2⟩ := ih ht
      refine ⟨?_, ?_⟩
      · rw [List.cons_append, List.takeWhile_cons_of_pos hna, ih1]
      · rw [List.cons_append, List.dropWhile_cons_of_pos hna, ih2]

theorem parseSecretsLine_encode (acc : List (String × String))
    (k v : String) (hk : cleanKey k = true) (hv : cleanVal v = true) :
    parseSecretsLine acc (encodeSecretsLine (k, v)) = setTok acc k v := by
  have hkp := cleanKey_parts k hk
  have hvp := cleanVal_parts v hv
  have hbig : (encodeSecretsLine (k, v)).data
      = k.data ++ '=' :: '\'' :: (v.data ++ ['\'']) := rfl
  have hmem : '=' ∈ (encodeSecretsLine (k, v)).data := by
    rw [hbig]
    exact List.mem_append.mpr (Or.inr (List.mem_cons_self _ _))
  have hlast : (k.data ++ '=' :: '\'' :: (v.data ++ ['\''])).getLast?
      = some '\'' := by
    rw [show ('=' :: '\'' :: (v.data ++ ['\'']))
        = (('=' :: '\'' :: v.data) ++ ['\'']) from by simp,
      ← List.append_assoc, List.getLast?_concat]
  have hstrip : dropEdge Char.isWhitespace (encodeSecretsLine (k, v)).data
      = k.data ++ '=' :: '\'' :: (v.data ++ ['\'']) := by
    rw [hbig]
    apply dropEdge_eq_self
    · intro c hc
      cases hkd : k.data with
      | nil =>
          rw [hkd, List.nil_append, List.head?_cons] at hc
          rw [← Option.some.inj hc]
          decide
      | cons a t =>
          rw [hkd, List.cons_append, List.head?_cons] at hc
          rw [← Option.some.inj hc]
          exact hkp.2 a (by rw [hkd]; rfl)
    · intro c hc
      rw [hlast] at hc
      rw [← Option.some.inj hc]
      decide
  have hsplit := split_eq_parts k.data ('\'' :: (v.data ++ ['\''])) hkp.1
  have hsq := stripQuotes_wrap v hv
  simp only [parseSecretsLine]
  rw [if_pos hmem, hstrip, hsplit.1, hsplit.2, List.tail_cons, hsq]

theorem lookupTok_eq_none_iff {α : Type} (l : List (String × α))
    (t : String) : lookupTok l t = none ↔ t ∉ l.map Prod.fst := by
  induction l with
  | nil => simp [lookupTok]
  | cons p r ih =>
      rw [lookupTok]
      by_cases hp : p.1 = t
      · simp [hp]
      · have hp' : ¬t = p.1 := fun h => hp h.symm
        simp [hp, hp', ih]

theorem setTok_keys_of_present {α : Type} (l : List (String × α))
    (t : String) (v : α) (h : (lookupTok l t).isSome = true) :
    (setTok l t v).map Prod.fst = l.map Prod.fst := by
  unfold setTok
  rw [if_pos h, List.map_map]
  apply List.map_congr_left
  intro p _
  by_cases hpt : p.1 = t <;> simp [hpt]

theorem setTok_keys_nodup {α : Type} (l : List (String × α)) (t : String)
    (v : α) (h : (l.map Prod.fst).Nodup) :
    ((setTok l t v).map Prod.fst).Nodup := by
  by_cases hs : (lookupTok l t).isSome = true
  · rw [setTok_keys_of_present l t v hs]
    exact h
  · have hn : lookupTok l t = none := by
      cases hl : lookupTok l t with
      | none => rfl
      | some w => rw [hl] at hs; simp at hs
    have ht : t ∉ l.map Prod.fst := (lookupTok_eq_none_iff l t).mp hn
    unfold setTok
    rw [if_neg hs, List.map_append]
    simp [List.nodup_append, h, ht]

theorem parseSecretsLine_keys_nodup (acc : List (String × String))
    (line : String) (h : (acc.map Prod.fst).Nodup) :
    ((parseSecretsLine acc line).map Prod.fst).Nodup := by
  unfold parseSecretsLine
  split
  · exact setTok_keys_nodup _ _ _ h
  · exact h

theorem foldl_parse_keys_nodup (lines : List String) :
    ∀ acc : List (String × String), (acc.map Prod.fst).Nodup →
      ((lines.foldl parseSecretsLine acc).map Prod.fst).Nodup := by
  induction lines with
  | nil => intro acc h; exact h
  | cons line ls ih =>
      intro acc h
      rw [List.foldl_cons]
      exact ih _ (parseSecretsLine_keys_nodup acc line h)

theorem mem_setTok {α : Type} (l : List (String × α)) (t : String) (v : α)
    (q : String × α) (hq : q ∈ setTok l t v) : q = (t, v) ∨ q ∈ l := by
  unfold setTok at hq
  split at hq
  · rcases List.mem_map.mp hq with ⟨p, hp, hpq⟩
    by_cases hpt : p.1 = t
    · rw [if_pos hpt] at hpq
      exact Or.inl hpq.symm
    · rw [if_neg hpt] at hpq
      exact Or.inr (hpq ▸ hp)
  · rcases List.mem_append.mp hq with h | h
    · exact Or.inr h
    · exact Or.inl (List.mem_singleton.mp h)

theorem parse_encode_fold (fs : List (String × String)) :
    ∀ acc : List (String × String),
    (∀ p ∈ fs, cleanKey p.1 = true ∧ cleanVal p.2 = true) →
    (encodeSecrets fs).foldl parseSecretsLine acc
      = fs.foldl (fun a p => setTok a p.1 p.2) acc := by
  induction fs with
  | nil => intro acc _; rfl
  | cons p fs' ih =>
      intro acc hclean
      obtain ⟨hk, hv⟩ := hclean p (.head _)
      have hline : parseSecretsLine acc (encodeSecretsLine p)
          = setTok acc p.1 p.2 := by
        obtain ⟨kk, vv⟩ := p
        exact parseSecretsLine_encode acc kk vv hk hv
      simp only [encodeSecrets, List.map_cons, List.foldl_cons, hline]
      exact ih _ (fun q hq => hclean q (.tail _ hq))

theorem setTok_absent {α : Type} (l : List (String × α)) (t : String)
    (v : α) (h : lookupTok l t = none) : setTok l t v = l ++ [(t, v)] := by
  unfold setTok
  rw [h]
  simp

theorem lookupTok_append_pair_ne {α : Type} (l : List (String × α))
    (q : String × α) (t : String) (hne : q.1 ≠ t) :
    lookupTok (l ++ [q]) t = lookupTok l t := by
  obtain ⟨qk, qv⟩ := q
  exact lookupTok_append_single_ne l t qk qv hne

theorem foldl_setTok_append {α : Type} (fs : List (String × α)) :
    ∀ acc : List (String × α), ((fs.map Prod.fst).Nodup) →
    (∀ p ∈ fs, lookupTok acc p.1 = none) →
    fs.foldl (fun a p => setTok a p.1 p.2) acc = acc ++ fs := by
  induction fs with
  | nil => intro acc _ _; simp
  | cons p fs' ih =>
      intro acc hnd hdisj
      rw [List.foldl_cons]
      rw [show setTok acc p.1 p.2 = acc ++ [p] from by
        rw [setTok_absent acc p.1 p.2 (hdisj p (.head _))]]
      have hnd' : (fs'.map Prod.fst).Nodup := by
        rw [List.map_cons] at hnd
        exact (List.nodup_cons.mp hnd).2
      have hdisj' : ∀ q ∈ fs', lookupTok (acc ++ [p]) q.1 = none := by
        intro q hq
        have hpq : p.1 ≠ q.1 := by
          rw [List.map_cons] at hnd
          have hp1 : p.1 ∉ fs'.map Prod.fst := (List.nodup_cons.mp hnd).1
          intro h
          exact hp1 (h ▸ List.mem_map_of_mem Prod.fst hq)
        rw [lookupTok_append_pair_ne acc p q.1 hpq]
        exact hdisj q (.tail _ hq)
      rw [ih (acc ++ [p]) hnd' hdisj', List.append_assoc]
      rfl

theorem cleanVal_of_all_alnum (l : List Char)
    (h : ∀ c ∈ l, c.isAlphanum = true) : cleanVal (String.mk l) = true := by
  have hdata : (String.mk l).data = l := rfl
  unfold cleanVal
  rw [hdata]
  simp only [Bool.and_eq_true]
  refine ⟨⟨?_, ?_⟩, ?_⟩
  · simp only [Bool.not_eq_true', decide_eq_false_iff_not]
    intro hm
    exact absurd (h _ hm) (by decide)
  · cases hh : l.head? with
    | none => rfl
    | some c =>
        have hal := h c (List.mem_of_mem_head? (Option.mem_def.mpr hh))
        simp only [Bool.and_eq_true, Bool.not_eq_true',
          decide_eq_false_iff_not]
        constructor
        · intro he; rw [he] at hal; exact absurd hal (by decide)
        · intro he; rw [he] at hal; exact absurd hal (by decide)
  · cases hh : l.getLast? with
    | none => rfl
    | some c =>
        have hal := h c (List.mem_of_getLast?_eq_some hh)
        simp only [Bool.and_eq_true, Bool.not_eq_true',
          decide_eq_false_iff_not]
        constructor
        · intro he; rw [he] at hal; exact absurd hal (by decide)
        · intro he; rw [he] at hal; exact absurd hal (by decide)

theorem cleanVal_sanitizeKey (k : String) :
    cleanVal (sanitizeKey k) = true := by
  unfold sanitizeKey
  apply cleanVal_of_all_alnum
  intro c hc
  exact (List.mem_filter.mp hc).2

/-- Claim C4 counterexample: rotating the API key on a store holding
ODIDO_API_KEY and FOO updates ODIDO_API_KEY too, although the mutation
targets HUB_API_KEY: its prior value "old" is not preserved. -/
theorem rotate_api_key_updates_second_key :
    lookupTok (parseSecretsLines (encodeSecrets
      [("ODIDO_API_KEY", "old"), ("FOO", "bar")])) "ODIDO_API_KEY"
      = some "old" ∧
    (rotate_api_key "abcdefghijklmnop" (encodeSecrets
      [("ODIDO_API_KEY", "old"), ("FOO", "bar")])).map
      (fun ls => lookupTok (parseSecretsLines ls) "ODIDO_API_KEY")
      = .ok (some "abcdefghijklmnop") ∧
    ("old" : String) ≠ "abcdefghijklmnop" := by
  refine ⟨by decide, rfl, by decide⟩

/-- Claim C4 (amended): `rotate_api_key` updates exactly the two keys
HUB_API_KEY and ODIDO_API_KEY — both set to the sanitized new key — and
reading the store back after the write shows every other key unchanged
with its prior value, for any secrets file whose parsed entries are in
the writer's own `KEY='value'` format. -/
theorem rotate_api_key_merge (lines out : List String) (newKey k : String)
    (hk1 : k ≠ "HUB_API_KEY") (hk2 : k ≠ "ODIDO_API_KEY")
    (hclean : ∀ p ∈ parseSecretsLines lines,
      cleanKey p.1 = true ∧ cleanVal p.2 = true)
    (hok : rotate_api_key newKey lines = .ok out) :
    lookupTok (parseSecretsLines out) k
      = lookupTok (parseSecretsLines lines) k ∧
    lookupTok (parseSecretsLines out) "HUB_API_KEY"
      = some (sanitizeKey newKey) ∧
    lookupTok (parseSecretsLines out) "ODIDO_API_KEY"
      = some (sanitizeKey newKey) := by
  simp only [rotate_api_key] at hok
  by_cases h1 : newKey.data.isEmpty = true
  · rw [if_pos h1] at hok; cases hok
  · rw [if_neg h1] at hok
    by_cases h2 : ((newKey.data.filter Char.isAlphanum).isEmpty
        || decide ((newKey.data.filter Char.isAlphanum).length < 16)) = true
    · rw [if_pos h2] at hok; cases hok
    · rw [if_neg h2] at hok
      have hout : out = encodeSecrets
          (setTok (setTok (parseSecretsLines lines) "HUB_API_KEY"
              (String.mk (newKey.data.filter Char.isAlphanum)))
            "ODIDO_API_KEY"
            (String.mk (newKey.data.filter Char.isAlphanum))) :=
        (Except.ok.inj hok).symm
      have hfsnd : ((parseSecretsLines lines).map Prod.fst).Nodup :=
        foldl_parse_keys_nodup lines [] (by simp)
      have hnd1 := setTok_keys_nodup (parseSecretsLines lines) "HUB_API_KEY"
        (String.mk (newKey.data.filter Char.isAlphanum)) hfsnd
      have hnd2 := setTok_keys_nodup _ "ODIDO_API_KEY"
        (String.mk (newKey.data.filter Char.isAlphanum)) hnd1
      have hskclean : cleanVal
          (String.mk (newKey.data.filter Char.isAlphanum)) = true :=
        cleanVal_sanitizeKey newKey
      have hclean2 : ∀ p ∈ setTok (setTok (parseSecretsLines lines)
          "HUB_API_KEY" (String.mk (newKey.data.filter Char.isAlphanum)))
          "ODIDO_API_KEY" (String.mk (newKey.data.filter Char.isAlphanum)),
          cleanKey p.1 = true ∧ cleanVal p.2 = true := by
        intro p hp
        rcases mem_setTok _ _ _ p hp with rfl | hp1
        · exact ⟨(by decide : cleanKey "ODIDO_API_KEY" = true), hskclean⟩
        · rcases mem_setTok _ _ _ p hp1 with rfl | hp2
          · exact ⟨(by decide : cleanKey "HUB_API_KEY" = true), hskclean⟩
          · exact hclean p hp2
      have hparse : parseSecretsLines out = setTok (setTok
          (parseSecretsLines lines) "HUB_API_KEY"
          (String.mk (newKey.data.filter Char.isAlphanum)))
          "ODIDO_API_KEY"
          (String.mk (newKey.data.filter Char.isAlphanum)) := by
        rw [hout]
        show (encodeSecrets _).foldl parseSecretsLine [] = _
        rw [parse_encode_fold _ [] hclean2]
        rw [foldl_setTok_append _ [] hnd2 (fun q _ => rfl)]
        rfl
      rw [hparse]
      refine ⟨?_, ?_, ?_⟩
      · rw [lookupTok_setTok_ne _ k "ODIDO_API_KEY" _ (fun h => hk2 h.symm)]
        rw [lookupTok_setTok_ne _ k "HUB_API_KEY" _ (fun h => hk1 h.symm)]
      · rw [lookupTok_setTok_ne _ "HUB_API_KEY" "ODIDO_API_KEY" _
          (by decide)]
        exact lookupTok_setTok_self _ _ _
      · exact lookupTok_setTok_self _ _ _

/-- Witness for the amended C4 theorem: store `FOO='bar'`, rotated with
a 16-character key — FOO keeps its value, both API keys change. -/
theorem rotate_api_key_merge_witness :
    lookupTok (parseSecretsLines (encodeSecrets [("FOO", "bar"),
      ("HUB_API_KEY", "abcdefghijklmnop"),
      ("ODIDO_API_KEY", "abcdefghijklmnop")])) "FOO"
      = lookupTok (parseSecretsLines (encodeSecrets [("FOO", "bar")]))
          "FOO" ∧
    lookupTok (parseSecretsLines (encodeSecrets [("FOO", "bar"),
      ("HUB_API_KEY", "abcdefghijklmnop"),
      ("ODIDO_API_KEY", "abcdefghijklmnop")])) "HUB_API_KEY"
      = some (sanitizeKey "abcdefghijklmnop") := by
  have h := rotate_api_key_merge (encodeSecrets [("FOO", "bar")])
    (encodeSecrets [("FOO", "bar"), ("HUB_API_KEY", "abcdefghijklmnop"),
      ("ODIDO_API_KEY", "abcdefghijklmnop")])
    "abcdefghijklmnop" "FOO" (by decide) (by decide) (by decide) (by rfl)
  exact ⟨h.1, h.2.1⟩

end SelfhostStack
